import Mathlib

/-!
Verification development for the image-classification subsystem of the
Happy-Meowth repository (`src/predict.py`): the `PredictionCache` bounded
TTL cache and the `Prediction` classifier pipeline (fetch, decode,
preprocess, inference, result formatting and caching).

Modelling conventions:
* Python `dict`s are modelled as insertion-ordered association lists
  (`List (String × β)`), mirroring Python dict iteration order, `pop`,
  lookup and assignment.
* `time.time()` values are modelled as integers (an exact linearly
  ordered time line); the code only ever compares time differences
  against the TTL, so any linearly ordered time model is faithful.
* `float` arithmetic on probabilities is exact over `ℚ`; `np.exp` is an
  abstract strictly positive function supplied by the environment.
* Side effects (aiohttp / requests fetches, PIL decode and LANCZOS
  resize, the ONNX session run) are oracle fields of an `Env` record;
  the numpy pipeline after the resize is modelled concretely.
-/

/-- Python `d[k]` as an `Option`: the first binding of key `k`. -/
def dictGet? {β : Type} (k : String) (l : List (String × β)) : Option β :=
  (l.find? (fun p => p.1 == k)).map Prod.snd

/-- Python `d.pop(k, None)`: remove the binding of key `k`, if any. -/
def dictPop {β : Type} (k : String) (l : List (String × β)) : List (String × β) :=
  l.filter (fun p => !(p.1 == k))

/-- Python `d[k] = v`: update the binding in place if present, else append. -/
def dictSet {β : Type} (k : String) (v : β) (l : List (String × β)) : List (String × β) :=
  if l.any (fun p => p.1 == k) then
    l.map (fun p => if p.1 == k then (k, v) else p)
  else l ++ [(k, v)]

/-- The `PredictionCache` state (`src/predict.py` lines 17-23): the
`cache` dict maps URL-hash keys to `(label, confidence)` pairs, the
`timestamps` dict maps the same keys to insertion times. -/
structure PredictionCache where
  cache : List (String × (String × String))
  timestamps : List (String × Int)
  max_size : Nat
  ttl_seconds : Int

/-- `PredictionCache._cleanup_expired` (lines 25-34): collect every key
whose timestamp is strictly older than the TTL, then pop each collected
key from both dicts. -/
def PredictionCache.cleanup_expired (c : PredictionCache) (now : Int) : PredictionCache :=
  let expired_keys :=
    (c.timestamps.filter (fun p => c.ttl_seconds < now - p.2)).map Prod.fst
  { c with
    cache := expired_keys.foldl (fun m k => dictPop k m) c.cache
    timestamps := expired_keys.foldl (fun m k => dictPop k m) c.timestamps }

/-- `PredictionCache.get` (lines 36-47): first sweep out expired entries,
then return the entry if present and not expired; an entry found expired
at this point is removed from both dicts.  Returns the result together
with the mutated cache state.  (In the branch where the key is in
`cache` but not in `timestamps` Python would raise `KeyError`; that
branch is unreachable while the two dicts share their key set.) -/
def PredictionCache.get (c : PredictionCache) (key : String) (now : Int) :
    Option (String × String) × PredictionCache :=
  let c1 := c.cleanup_expired now
  match dictGet? key c1.cache with
  | some v =>
    match dictGet? key c1.timestamps with
    | some ts =>
      if now - ts ≤ c1.ttl_seconds then (some v, c1)
      else
        (none, { c1 with
          cache := dictPop key c1.cache
          timestamps := dictPop key c1.timestamps })
    | none => (none, c1)
  | none => (none, c1)

/-- Python `min(self.timestamps.keys(), key=lambda k: self.timestamps[k])`
(line 55): the first key attaining the minimal timestamp (`min` keeps the
earliest candidate on ties, as does this fold with a strict comparison). -/
def minByTs (p : String × Int) (rest : List (String × Int)) : String × Int :=
  rest.foldl (fun best q => if q.2 < best.2 then q else best) p

def oldestKey (ts : List (String × Int)) : Option String :=
  match ts with
  | [] => none
  | p :: rest => some (minByTs p rest).1

/-- `PredictionCache.set` (lines 49-60): sweep out expired entries; if the
cache is still at or above `max_size`, pop the entry with the oldest
timestamp from both dicts; finally insert the new binding with the
current time.  (When `timestamps` is empty and the size test still
passes — only possible with `max_size = 0` — Python's `min` raises
`ValueError`; that branch is modelled as a no-op and excluded by the
`1 ≤ max_size` hypotheses below.) -/
def PredictionCache.set (c : PredictionCache) (key : String)
    (value : String × String) (now : Int) : PredictionCache :=
  let c1 := c.cleanup_expired now
  let c2 :=
    if c1.max_size ≤ c1.cache.length then
      match oldestKey c1.timestamps with
      | some okey =>
        { c1 with
          cache := dictPop okey c1.cache
          timestamps := dictPop okey c1.timestamps }
      | none => c1
    else c1
  { c2 with
    cache := dictSet key value c2.cache
    timestamps := dictSet key now c2.timestamps }

/-- The two dicts of a `PredictionCache` bind exactly the same keys, in
the same iteration order. -/
def keysAligned (c : PredictionCache) : Prop :=
  c.cache.map Prod.fst = c.timestamps.map Prod.fst

/-! ### Association-list lemmas -/

theorem map_fst_dictPop {β : Type} (k : String) (l : List (String × β)) :
    (dictPop k l).map Prod.fst = (l.map Prod.fst).filter (fun x => !(x == k)) := by
  induction l with
  | nil => rfl
  | cons p t ih =>
    by_cases h : p.1 == k <;>
      simp [dictPop, List.filter_cons, h] at ih ⊢ <;> exact ih

theorem map_fst_popFold {β : Type} (ks : List String) (l : List (String × β)) :
    ((ks.foldl (fun m k => dictPop k m) l).map Prod.fst) =
      ks.foldl (fun m k => m.filter (fun x => !(x == k))) (l.map Prod.fst) := by
  induction ks generalizing l with
  | nil => rfl
  | cons k ks ih => simpa [map_fst_dictPop] using ih (dictPop k l)

theorem any_beq_map_fst {β : Type} (l : List (String × β)) (k : String) :
    (l.any fun p => p.1 == k) = ((l.map Prod.fst).any fun x => x == k) := by
  induction l with
  | nil => rfl
  | cons p t ih => simp [ih]

theorem any_key_eq_of_map_fst {β γ : Type} {l1 : List (String × β)}
    {l2 : List (String × γ)} (h : l1.map Prod.fst = l2.map Prod.fst) (k : String) :
    l1.any (fun p => p.1 == k) = l2.any (fun p => p.1 == k) := by
  rw [any_beq_map_fst, any_beq_map_fst, h]

theorem map_fst_update {β : Type} (k : String) (v : β) (l : List (String × β)) :
    (l.map (fun p => if p.1 == k then (k, v) else p)).map Prod.fst = l.map Prod.fst := by
  induction l with
  | nil => rfl
  | cons p t ih =>
    simp only [List.map_cons, ih]
    by_cases hp : p.1 == k
    · have hpk : p.1 = k := by simpa using hp
      simp [hp, hpk]
    · simp [hp]

theorem map_fst_dictSet {β : Type} (k : String) (v : β) (l : List (String × β)) :
    (dictSet k v l).map Prod.fst =
      if l.any (fun p => p.1 == k) then l.map Prod.fst else l.map Prod.fst ++ [k] := by
  by_cases h : l.any (fun p => p.1 == k)
  · -- the in-place update never changes the first component of any entry
    simp only [dictSet, h, if_true]
    exact map_fst_update k v l
  · simp [dictSet, h]

theorem dictGet?_eq_none_iff {β : Type} (k : String) (l : List (String × β)) :
    dictGet? k l = none ↔ k ∉ l.map Prod.fst := by
  simp only [dictGet?, Option.map_eq_none', List.find?_eq_none, List.mem_map]
  constructor
  · rintro h ⟨p, hp, rfl⟩
    exact (by simpa using h p hp)
  · intro h p hp
    simp only [beq_iff_eq]
    intro hk
    exact h ⟨p, hp, hk⟩

theorem dictGet?_cons {β : Type} (k : String) (p : String × β) (t : List (String × β)) :
    dictGet? k (p :: t) = if p.1 == k then some p.2 else dictGet? k t := by
  by_cases hp : p.1 == k <;> simp [dictGet?, List.find?_cons, hp]

theorem dictGet?_dictPop {β : Type} (k k' : String) (l : List (String × β)) :
    dictGet? k (dictPop k' l) = if k' = k then none else dictGet? k l := by
  induction l with
  | nil => simp [dictGet?, dictPop]
  | cons p t ih =>
    by_cases hp : p.1 = k'
    · -- `p` is removed by the pop
      have hb : (p.1 == k') = true := by simpa using hp
      have hfilter : dictPop k' (p :: t) = dictPop k' t := by
        simp [dictPop, List.filter_cons, hb]
      rw [hfilter, ih]
      by_cases hkk : k' = k
      · simp [hkk]
      · have hpk : ¬(p.1 == k) = true := by
          simp only [beq_iff_eq]
          exact fun hc => hkk (hp ▸ hc)
        simp [hkk, dictGet?_cons, hpk]
    · -- `p` survives the pop
      have hb : (p.1 == k') = false := by simpa using hp
      have hfilter : dictPop k' (p :: t) = p :: dictPop k' t := by
        simp [dictPop, List.filter_cons, hb]
      rw [hfilter, dictGet?_cons, dictGet?_cons]
      by_cases hpk : p.1 == k
      · have hke : p.1 = k := by simpa using hpk
        have hkk : ¬k' = k := fun hc => hp (hc ▸ hke)
        simp [hpk, hkk]
      · simp only [hpk, if_false]
        exact ih

theorem dictGet?_popFold {β : Type} (ks : List String) (l : List (String × β))
    (k : String) :
    dictGet? k (ks.foldl (fun m k' => dictPop k' m) l) =
      if k ∈ ks then none else dictGet? k l := by
  induction ks generalizing l with
  | nil => simp
  | cons a ks ih =>
    simp only [List.foldl_cons]
    rw [ih (dictPop a l), dictGet?_dictPop]
    by_cases hks : k ∈ ks
    · simp [hks]
    · by_cases hak : a = k
      · simp [hks, hak]
      · have : ¬k ∈ a :: ks := by
          simp [List.mem_cons, hks]
          exact fun hc => hak hc.symm
        simp [hks, hak, this]

theorem keysAligned_cleanup {c : PredictionCache} (h : keysAligned c) (now : Int) :
    keysAligned (c.cleanup_expired now) := by
  unfold keysAligned PredictionCache.cleanup_expired at *
  simp only [map_fst_popFold, h]

theorem keysAligned_get {c : PredictionCache} (h : keysAligned c) (key : String)
    (now : Int) : keysAligned ((c.get key now).2) := by
  have h1 := keysAligned_cleanup h now
  unfold PredictionCache.get
  dsimp only
  split
  · split
    · split
      · exact h1
      · unfold keysAligned at *
        simp only [map_fst_dictPop, h1]
    · exact h1
  · exact h1

theorem keysAligned_set {c : PredictionCache} (h : keysAligned c) (key : String)
    (value : String × String) (now : Int) :
    keysAligned (c.set key value now) := by
  have h1 := keysAligned_cleanup h now
  have step : ∀ c2 : PredictionCache, keysAligned c2 →
      keysAligned { c2 with
        cache := dictSet key value c2.cache
        timestamps := dictSet key now c2.timestamps } := by
    intro c2 h2
    unfold keysAligned at *
    simp only [map_fst_dictSet, any_key_eq_of_map_fst h2 key, h2]
  unfold PredictionCache.set
  dsimp only
  split
  · split
    · apply step
      unfold keysAligned at *
      simp only [map_fst_dictPop, h1]
    · exact step _ h1
  · exact step _ h1

theorem minByTs_mem (p : String × Int) (rest : List (String × Int)) :
    minByTs p rest ∈ p :: rest := by
  induction rest generalizing p with
  | nil => simp [minByTs]
  | cons q u ih =>
    have hdef : minByTs p (q :: u) = minByTs (if q.2 < p.2 then q else p) u := rfl
    rw [hdef]
    rcases List.mem_cons.mp (ih (if q.2 < p.2 then q else p)) with h | h
    · rw [h]
      by_cases hq : q.2 < p.2 <;> simp [hq]
    · exact List.mem_cons_of_mem _ (List.mem_cons_of_mem _ h)

theorem minByTs_le (p : String × Int) (rest : List (String × Int)) :
    ∀ q ∈ p :: rest, (minByTs p rest).2 ≤ q.2 := by
  induction rest generalizing p with
  | nil =>
    intro q hq
    simp at hq
    simp [minByTs, hq]
  | cons r u ih =>
    intro q hq
    have hdef : minByTs p (r :: u) = minByTs (if r.2 < p.2 then r else p) u := rfl
    rw [hdef]
    have hstart : (minByTs (if r.2 < p.2 then r else p) u).2 ≤ (if r.2 < p.2 then r else p).2 :=
      ih _ _ (List.mem_cons_self _ _)
    rcases List.mem_cons.mp hq with hqp | hq2
    · subst hqp
      refine le_trans hstart ?_
      by_cases hr : r.2 < q.2
      · simp only [hr, if_true]
        exact le_of_lt hr
      · simp [hr]
    · rcases List.mem_cons.mp hq2 with hqr | hq3
      · subst hqr
        refine le_trans hstart ?_
        by_cases hr : q.2 < p.2
        · simp [hr]
        · simp only [hr, if_false]
          exact not_lt.mp hr
      · exact ih _ q (List.mem_cons_of_mem _ hq3)

theorem nodup_filterFold (ks : List String) (l : List String) (h : l.Nodup) :
    (ks.foldl (fun m k => m.filter (fun x => !(x == k))) l).Nodup := by
  induction ks generalizing l with
  | nil => exact h
  | cons k ks ih => exact ih _ (h.filter _)

theorem dictGet?_append {β : Type} (k : String) (l1 l2 : List (String × β)) :
    dictGet? k (l1 ++ l2) =
      match dictGet? k l1 with
      | some v => some v
      | none => dictGet? k l2 := by
  induction l1 with
  | nil => simp [dictGet?]
  | cons p t ih =>
    by_cases hp : p.1 == k
    · simp [List.cons_append, dictGet?_cons, hp]
    · simpa [List.cons_append, dictGet?_cons, hp] using ih

theorem dictGet?_update_self {β : Type} (k : String) (v : β) (l : List (String × β)) :
    dictGet? k (l.map (fun p => if p.1 == k then (k, v) else p)) =
      if l.any (fun p => p.1 == k) then some v else none := by
  induction l with
  | nil => simp [dictGet?]
  | cons p t ih =>
    simp only [beq_iff_eq] at ih
    by_cases hp : p.1 = k
    · simp [dictGet?_cons, hp]
    · have hb : (p.1 == k) = false := by simpa using hp
      simp only [List.map_cons, List.any_cons, hb, Bool.false_or]
      simp [dictGet?_cons, hp, ih]

theorem dictGet?_update_ne {β : Type} (k k' : String) (v : β) (l : List (String × β))
    (hne : k' ≠ k) :
    dictGet? k (l.map (fun p => if p.1 == k' then (k', v) else p)) = dictGet? k l := by
  induction l with
  | nil => rfl
  | cons p t ih =>
    simp only [beq_iff_eq] at ih
    by_cases hp : p.1 = k'
    · have h2 : ¬(p.1 = k) := by
        rw [hp]
        exact hne
      simp [dictGet?_cons, hp, hne, h2, ih]
    · by_cases hk : p.1 = k
      · simp [dictGet?_cons, hp, hk, Ne.symm hne]
      · simp [dictGet?_cons, hp, hk, ih]

theorem dictGet?_eq_none_of_any_false {β : Type} (k : String) (l : List (String × β))
    (h : l.any (fun p => p.1 == k) = false) : dictGet? k l = none := by
  rw [dictGet?_eq_none_iff]
  intro hk
  rcases List.mem_map.mp hk with ⟨p, hp, hpk⟩
  have := List.any_eq_false.mp h p hp
  simp [hpk] at this

theorem dictGet?_dictSet_self {β : Type} (k : String) (v : β) (l : List (String × β)) :
    dictGet? k (dictSet k v l) = some v := by
  unfold dictSet
  by_cases h : l.any (fun p => p.1 == k)
  · rw [if_pos h, dictGet?_update_self, if_pos h]
  · rw [if_neg h, dictGet?_append,
      dictGet?_eq_none_of_any_false k l (eq_false_of_ne_true h)]
    simp [dictGet?_cons]

theorem dictGet?_dictSet_ne {β : Type} (k k' : String) (v : β) (l : List (String × β))
    (hne : k' ≠ k) : dictGet? k (dictSet k' v l) = dictGet? k l := by
  unfold dictSet
  have h2 : dictGet? k [(k', v)] = none := by
    have hb : ((k', v).1 == k) = false := by simp [hne]
    simp [dictGet?_cons, hb, dictGet?]
  by_cases h : l.any (fun p => p.1 == k')
  · rw [if_pos h]
    exact dictGet?_update_ne k k' v l hne
  · rw [if_neg h, dictGet?_append]
    cases hl : dictGet? k l with
    | none => exact h2
    | some w => rfl

theorem length_dictSet {β : Type} (k : String) (v : β) (l : List (String × β)) :
    (dictSet k v l).length ≤ l.length + 1 := by
  by_cases h : l.any (fun p => p.1 == k) <;> simp [dictSet, h]

theorem length_dictPop_lt {β : Type} (k : String) (l : List (String × β))
    (h : k ∈ l.map Prod.fst) : (dictPop k l).length < l.length := by
  unfold dictPop
  rw [List.length_filter_lt_length_iff_exists]
  rcases List.mem_map.mp h with ⟨p, hp, hpk⟩
  exact ⟨p, hp, by simp [hpk]⟩

theorem length_popFold_le {β : Type} (ks : List String) (l : List (String × β)) :
    (ks.foldl (fun m k => dictPop k m) l).length ≤ l.length := by
  induction ks generalizing l with
  | nil => exact le_refl _
  | cons k ks ih => exact le_trans (ih (dictPop k l)) (List.length_filter_le _ _)

theorem dictGet?_of_mem_nodup {β : Type} {l : List (String × β)} {p : String × β}
    (hnd : (l.map Prod.fst).Nodup) (hp : p ∈ l) : dictGet? p.1 l = some p.2 := by
  induction l with
  | nil => simp at hp
  | cons q t ih =>
    rcases List.mem_cons.mp hp with hq | hq
    · subst hq
      simp [dictGet?_cons]
    · have hne : ¬(q.1 == p.1) = true := by
        simp only [beq_iff_eq]
        intro hc
        have : p.1 ∈ t.map Prod.fst := List.mem_map.mpr ⟨p, hq, rfl⟩
        rw [← hc] at this
        exact (List.nodup_cons.mp (by simpa using hnd)).1 this
      rw [dictGet?_cons]
      simp only [hne, if_false]
      exact ih (List.nodup_cons.mp (by simpa using hnd)).2 hq

theorem cleanup_cache (c : PredictionCache) (now : Int) :
    (c.cleanup_expired now).cache =
      ((c.timestamps.filter (fun p => c.ttl_seconds < now - p.2)).map Prod.fst).foldl
        (fun m k => dictPop k m) c.cache := rfl

theorem cleanup_timestamps (c : PredictionCache) (now : Int) :
    (c.cleanup_expired now).timestamps =
      ((c.timestamps.filter (fun p => c.ttl_seconds < now - p.2)).map Prod.fst).foldl
        (fun m k => dictPop k m) c.timestamps := rfl

/-- C10: after every `PredictionCache` operation (`get`, `set`, and the
internal expiry sweep `_cleanup_expired`), the key set of the value map
`cache` equals the key set of the timestamp map `timestamps`: every
cached result has exactly one associated insertion timestamp and vice
versa.  (Key lists are even equal as ordered lists.) -/
theorem claim_C10 (c : PredictionCache) (key : String) (value : String × String)
    (now : Int) (h : keysAligned c) :
    keysAligned (c.cleanup_expired now) ∧ keysAligned ((c.get key now).2) ∧
      keysAligned (c.set key value now) :=
  ⟨keysAligned_cleanup h now, keysAligned_get h key now, keysAligned_set h key value now⟩

def cacheW : PredictionCache :=
  { cache := [("a", ("Abra", "50.00%"))]
    timestamps := [("a", 0)]
    max_size := 1
    ttl_seconds := 3600 }

theorem claim_C10_witness :
    keysAligned cacheW ∧
      (keysAligned (cacheW.cleanup_expired 10) ∧
        keysAligned ((cacheW.get "b" 10).2) ∧
        keysAligned (cacheW.set "b" ("Beedrill", "60.00%") 10)) :=
  ⟨rfl, claim_C10 cacheW "b" ("Beedrill", "60.00%") 10 rfl⟩

/-- The concrete one-entry cache used for the C3 boundary counterexample:
one entry inserted at time T = 0, TTL = 3600. -/
def cacheC3 : PredictionCache :=
  { cache := [("k", ("Pikachu", "97.00%"))]
    timestamps := [("k", 0)]
    max_size := 1000
    ttl_seconds := 3600 }

/-- C3 counterexample: the claim says a lookup at any time ≥ T + TTL
treats the entry as absent, but a `get` at exactly T + TTL (here
0 + 3600) still returns the entry, because the code expires entries only
when `now - timestamp > ttl` (strictly). -/
theorem claim_C3_counterexample :
    (0 : Int) + cacheC3.ttl_seconds ≤ 3600 ∧
      (cacheC3.get "k" 3600).1 = some ("Pikachu", "97.00%") := by
  constructor
  · decide
  · rfl

/-- C3 (amended): for a cache entry whose timestamp is T, any `get`
occurring at time strictly greater than T + TTL treats the entry as
absent (returns a miss) — `get` first lazily purges, in one sweep over
all entries, every entry strictly older than the TTL, so the entry is
also removed from the cache state. -/
theorem claim_C3 (c : PredictionCache) (key : String) (T now : Int)
    (hT : dictGet? key c.timestamps = some T)
    (hlate : c.ttl_seconds < now - T) :
    (c.get key now).1 = none ∧
      dictGet? key ((c.get key now).2).cache = none := by
  -- the found binding is a pair (key, T) that lies in `timestamps`
  obtain ⟨p, hfind, hp2⟩ :
      ∃ p, c.timestamps.find? (fun p => p.1 == key) = some p ∧ p.2 = T := by
    unfold dictGet? at hT
    cases hf : c.timestamps.find? (fun p => p.1 == key) with
    | none => rw [hf] at hT; simp at hT
    | some q =>
      rw [hf] at hT
      exact ⟨q, rfl, by simpa using hT⟩
  have hp1 : p.1 = key := by simpa using List.find?_some hfind
  have hmem : p ∈ c.timestamps := List.mem_of_find?_eq_some hfind
  have hkey_expired :
      key ∈ (c.timestamps.filter (fun p => c.ttl_seconds < now - p.2)).map Prod.fst := by
    refine List.mem_map.mpr ⟨p, ?_, hp1⟩
    refine List.mem_filter.mpr ⟨hmem, ?_⟩
    rw [hp2]
    simpa using hlate
  have hnone : dictGet? key (c.cleanup_expired now).cache = none := by
    rw [cleanup_cache, dictGet?_popFold]
    simp [hkey_expired]
  unfold PredictionCache.get
  dsimp only
  split
  · next v hv => rw [hnone] at hv; exact absurd hv (by simp)
  · exact ⟨rfl, hnone⟩

theorem claim_C3_witness :
    dictGet? "k" cacheC3.timestamps = some 0 ∧
      cacheC3.ttl_seconds < 3601 - 0 ∧
      ((cacheC3.get "k" 3601).1 = none ∧
        dictGet? "k" ((cacheC3.get "k" 3601).2).cache = none) :=
  ⟨rfl, by decide, claim_C3 cacheC3 "k" 0 3601 rfl (by decide)⟩

/-- C6: `set(key, value)` first purges expired entries; if the cache is
still at or above its maximum size it evicts exactly the single entry
with the oldest insertion timestamp; then it inserts the new entry with
the current timestamp.  Consequently (for a well-formed cache that is
within its bound, with a positive maximum size): after `set` the cache
still holds at most `max_size` entries, the entry just inserted is
present (so the most-recently-inserted entry is never the one evicted by
this policy), and any other key dropped by `set` beyond the expiry sweep
had a minimal insertion timestamp among the surviving entries. -/
theorem claim_C6 (c : PredictionCache) (key : String) (value : String × String)
    (now : Int) (hal : keysAligned c)
    (hnd : (c.timestamps.map Prod.fst).Nodup)
    (hsz : c.cache.length ≤ c.max_size) (hpos : 1 ≤ c.max_size) :
    (c.set key value now).cache.length ≤ c.max_size ∧
      dictGet? key (c.set key value now).cache = some value ∧
      dictGet? key (c.set key value now).timestamps = some now ∧
      (∀ k', k' ≠ key → dictGet? k' (c.set key value now).cache = none →
        dictGet? k' (c.cleanup_expired now).cache = none ∨
        ∃ ts', dictGet? k' (c.cleanup_expired now).timestamps = some ts' ∧
          ∀ q ∈ (c.cleanup_expired now).timestamps, ts' ≤ q.2) := by
  have hal1 := keysAligned_cleanup hal now
  have hnd1 : ((c.cleanup_expired now).timestamps.map Prod.fst).Nodup := by
    rw [cleanup_timestamps, map_fst_popFold]
    exact nodup_filterFold _ _ hnd
  have hlen1 : (c.cleanup_expired now).cache.length ≤ c.max_size := by
    rw [cleanup_cache]
    exact le_trans (length_popFold_le _ _) hsz
  unfold PredictionCache.set
  dsimp only
  by_cases hfull :
      (c.cleanup_expired now).max_size ≤ (c.cleanup_expired now).cache.length
  · rw [if_pos hfull]
    have hmax1 : (c.cleanup_expired now).max_size = c.max_size := rfl
    cases hts : (c.cleanup_expired now).timestamps with
    | nil =>
      exfalso
      have hkeys : (c.cleanup_expired now).cache.map Prod.fst = [] := by
        rw [hal1, hts]
        rfl
      have hlen0 : (c.cleanup_expired now).cache.length = 0 := by
        have := congrArg List.length hkeys
        simpa using this
      rw [hmax1, hlen0] at hfull
      omega
    | cons p rest =>
      simp only [oldestKey]
      have hmemts : minByTs p rest ∈ (c.cleanup_expired now).timestamps := by
        rw [hts]
        exact minByTs_mem p rest
      have hok_mem_ts : (minByTs p rest).1 ∈ (c.cleanup_expired now).timestamps.map Prod.fst :=
        List.mem_map.mpr ⟨_, hmemts, rfl⟩
      have hok_mem : (minByTs p rest).1 ∈ (c.cleanup_expired now).cache.map Prod.fst := by
        rw [hal1]
        exact hok_mem_ts
      have hpop_lt := length_dictPop_lt _ _ hok_mem
      refine ⟨?_, dictGet?_dictSet_self _ _ _, dictGet?_dictSet_self _ _ _, ?_⟩
      · refine le_trans (length_dictSet _ _ _) ?_
        omega
      · intro k' hk' habs
        rw [dictGet?_dictSet_ne _ _ _ _ (Ne.symm hk')] at habs
        rw [dictGet?_dictPop] at habs
        by_cases hok : (minByTs p rest).1 = k'
        · right
          refine ⟨(minByTs p rest).2, ?_, ?_⟩
          · have h := dictGet?_of_mem_nodup hnd1 hmemts
            rw [hok, hts] at h
            exact h
          · intro q hq
            exact minByTs_le p rest q hq
        · rw [if_neg hok] at habs
          exact Or.inl habs
  · rw [if_neg hfull]
    have hmax1 : (c.cleanup_expired now).max_size = c.max_size := rfl
    rw [hmax1] at hfull
    refine ⟨?_, dictGet?_dictSet_self _ _ _, dictGet?_dictSet_self _ _ _, ?_⟩
    · refine le_trans (length_dictSet _ _ _) ?_
      omega
    · intro k' hk' habs
      rw [dictGet?_dictSet_ne _ _ _ _ (Ne.symm hk')] at habs
      exact Or.inl habs

theorem claim_C6_witness :
    keysAligned cacheW ∧ (cacheW.timestamps.map Prod.fst).Nodup ∧
      cacheW.cache.length ≤ cacheW.max_size ∧ 1 ≤ cacheW.max_size ∧
      ((cacheW.set "b" ("Beedrill", "60.00%") 10).cache.length ≤ cacheW.max_size ∧
        dictGet? "b" (cacheW.set "b" ("Beedrill", "60.00%") 10).cache =
          some ("Beedrill", "60.00%") ∧
        dictGet? "b" (cacheW.set "b" ("Beedrill", "60.00%") 10).timestamps = some 10 ∧
        (∀ k', k' ≠ "b" →
          dictGet? k' (cacheW.set "b" ("Beedrill", "60.00%") 10).cache = none →
          dictGet? k' (cacheW.cleanup_expired 10).cache = none ∨
          ∃ ts', dictGet? k' (cacheW.cleanup_expired 10).timestamps = some ts' ∧
            ∀ q ∈ (cacheW.cleanup_expired 10).timestamps, ts' ≤ q.2)) :=
  ⟨rfl, by decide, by decide, by decide,
    claim_C6 cacheW "b" ("Beedrill", "60.00%") 10 rfl (by decide) (by decide) (by decide)⟩

/-! ### The prediction pipeline (`Prediction`, `src/predict.py` lines 62-247) -/

/-- Outcome of an HTTP GET (`aiohttp` / `requests`): either a completed
response (any status code) with body bytes, or a network-level exception
(timeout, DNS failure, connection error). -/
inductive HttpOutcome
  | response (status : Nat) (body : List Nat)
  | netError (msg : String)

/-- Opaque handle for a decoded PIL image (`Image.open(...).convert("RGB")`). -/
abbrev PILImage := Nat

/-- Pixel accessor of an image after `convert("RGB")` and
`resize((224, 224), Image.LANCZOS)`: height, width, channel ↦ 0-255
intensity. -/
abbrev RGB224 := Nat → Nat → Nat → Nat

/-- A numpy ndarray (4-D, as produced by this pipeline) tagged with the
element dtype recorded by `.astype(np.float32)`; `float` values are
modelled exactly over `ℚ`. -/
structure NpArray where
  dtype : String
  data : List (List (List (List ℚ)))

/-- The effectful collaborators of `Prediction`, supplied as oracles:
the HTTP clients, PIL, the ONNX session and `np.exp`. -/
structure Env where
  /-- `session.get(url, timeout=...)` in the async path (line 126) -/
  fetch : String → HttpOutcome
  /-- `requests.get(url, timeout=5)` in the sync path (line 211) -/
  syncFetch : String → HttpOutcome
  /-- `Image.open(io.BytesIO(bytes)).convert("RGB")`; failure carries the message -/
  decode : List Nat → Except String PILImage
  /-- `image.resize((224, 224), Image.LANCZOS)` -/
  resizeLanczos : PILImage → RGB224
  /-- `self.ort_session.run(None, inputs)[0][0]`: the logits vector, or
  the exception `ort_session.run` raises (e.g. on an input-shape
  mismatch), which propagates out of `predict` / `predict_sync` -/
  runModel : NpArray → Except String (List ℚ)
  /-- `np.exp` -/
  expf : ℚ → ℚ
  /-- `hashlib.md5(url.encode()).hexdigest()` (line 119), kept abstract -/
  md5_hexdigest : String → String

/-- `np.array(image, dtype=np.float32)` on a 224×224 RGB PIL image
(lines 145 / 220): the height-width-channel nested array. -/
def npArrayOfImage (pix : RGB224) : List (List (List ℚ)) :=
  (List.range 224).map fun h =>
    (List.range 224).map fun w =>
      (List.range 3).map fun ch => (pix h w ch : ℚ)

/-- elementwise `/ 255.0` -/
def div255 (a : List (List (List ℚ))) : List (List (List ℚ)) :=
  a.map (fun row => row.map (fun px => px.map (fun v => v / 255)))

/-- broadcast `(image - mean) / std` over the trailing (channel) axis
(lines 148-150 / 223-225) -/
def normalizeChannels (a : List (List (List ℚ))) (mean std : List ℚ) :
    List (List (List ℚ)) :=
  a.map (fun row => row.map (fun px =>
    px.mapIdx (fun ch v => (v - mean.getD ch 0) / std.getD ch 1)))

/-- `np.transpose(image, (2, 0, 1))` (line 153 / 228): HWC → CHW; the
leading axis length is the input's trailing (channel) axis length. -/
def transpose201 (a : List (List (List ℚ))) : List (List (List ℚ)) :=
  (List.range ((a.headD []).headD []).length).map fun ch =>
    a.map fun row => row.map fun px => px.getD ch 0

def imagenetMean : List ℚ := [485/1000, 456/1000, 406/1000]

def imagenetStd : List ℚ := [229/1000, 224/1000, 225/1000]

/-- The numpy block of `preprocess_image_from_url` (lines 144-156):
scale to [0,1], ImageNet-normalize, transpose to CHW, add the batch
dimension, `astype(np.float32)`. -/
def preprocessArrayAsync (pix : RGB224) : NpArray :=
  let image := npArrayOfImage pix
  let image := div255 image
  let image := normalizeChannels image imagenetMean imagenetStd
  let image := transpose201 image
  { dtype := "float32", data := [image] }

/-- The numpy block of `predict_sync` (lines 219-229): the synchronous
copy of the same pipeline. -/
def preprocessArraySync (pix : RGB224) : NpArray :=
  let image := npArrayOfImage pix
  let image := div255 image
  let image := normalizeChannels image imagenetMean imagenetStd
  let image := transpose201 image
  { dtype := "float32", data := [image] }

/-- The async path from fetched bytes to tensor: decode (line 137) then
resize + numpy block (lines 142-156).  Decode failure has its own
message, distinct from fetch failure. -/
def asyncTensorOfBytes (env : Env) (body : List Nat) : Except String NpArray :=
  match env.decode body with
  | .error e => .error ("Failed to process image: " ++ e)
  | .ok img => .ok (preprocessArrayAsync (env.resizeLanczos img))

/-- The sync path from fetched bytes to tensor: decode (line 212, inside
the same try/except as the fetch, hence the fetch-failure message) then
resize + numpy block (lines 217-229). -/
def syncTensorOfBytes (env : Env) (body : List Nat) : Except String NpArray :=
  match env.decode body with
  | .error e => .error ("Failed to load image from URL: " ++ e)
  | .ok img => .ok (preprocessArraySync (env.resizeLanczos img))

/-- `Prediction.preprocess_image_from_url` (lines 121-156): fetch with
the shared session; a non-200 status or any exception inside the try
block is reported as a fetch failure; then decode and preprocess. -/
def preprocess_image_from_url (env : Env) (url : String) : Except String NpArray :=
  match env.fetch url with
  | .netError e => .error ("Failed to load image from URL: " ++ e)
  | .response status body =>
    if status ≠ 200 then
      .error ("Failed to load image from URL: HTTP " ++ toString status ++
        " error fetching image")
    else
      asyncTensorOfBytes env body

/-- `np.max` over a vector. -/
def npMax (x : List ℚ) : ℚ :=
  match x with
  | [] => 0
  | h :: t => t.foldl max h

/-- `Prediction.softmax` (lines 158-161): `exp(x - max(x))` divided by
its sum — the numerically stable form. -/
def softmax (expf : ℚ → ℚ) (x : List ℚ) : List ℚ :=
  let exp_x := x.map (fun v => expf (v - npMax x))
  exp_x.map (fun e => e / exp_x.sum)

/-- `np.argmax` (line 187 / 236): the first index attaining the maximum. -/
def argmaxIdx (x : List ℚ) : Nat := x.indexOf (npMax x)

/-- decimal digit character -/
def decDigit (d : Nat) : Char := Char.ofNat (48 + d % 10)

/-- decimal rendering of a natural number (Python `str`) -/
def natDecimal (n : Nat) : List Char :=
  if n = 0 then ['0'] else ((Nat.digits 10 n).map decDigit).reverse

/-- Python `f"{x:.2f}%"` for the nonnegative percentage values produced
here (line 192 / 241): round to two decimal places and render with
exactly two fractional digits and a trailing `%`.  (CPython rounds the
underlying binary double half-to-even; the tie direction is immaterial
to every property proved below, and rounding is modelled as standard
rounding on `ℚ`.) -/
def formatPercent (x : ℚ) : String :=
  let n : Nat := (round (x * 100)).toNat
  String.mk (natDecimal (n / 100) ++
    ['.', decDigit (n % 100 / 10), decDigit (n % 100 % 10), '%'])

/-- The predictor state: the label table loaded at construction and the
result cache. -/
structure PredState where
  class_names : List String
  cache : PredictionCache

/-- `Prediction.predict` (lines 163-198): check the cache (keyed by the
URL's MD5 hex digest), on a miss fetch + preprocess, run inference,
take the arg-max, softmax-normalize, resolve the label (with the
`unknown_<idx>` fallback), format the confidence, cache and return.
Returns the result together with the mutated predictor state.  (The
`session is None` fallback that fetches the shared session from the
main module is outside this model: the session is part of `env`.) -/
def predict (env : Env) (st : PredState) (url : String) (now : Int) :
    Except String (String × String) × PredState :=
  let cache_key := env.md5_hexdigest url
  let res := st.cache.get cache_key now
  let cache1 := res.2
  match res.1 with
  | some cached_result => (.ok cached_result, { st with cache := cache1 })
  | none =>
    match preprocess_image_from_url env url with
    | .error e => (.error e, { st with cache := cache1 })
    | .ok image =>
      match env.runModel image with
      | .error e => (.error e, { st with cache := cache1 })
      | .ok logits =>
        -- `int(np.argmax(logits))` raises ValueError on an empty vector
        if logits = [] then
          (.error "attempt to get argmax of an empty sequence",
            { st with cache := cache1 })
        else
          let pred_idx := argmaxIdx logits
          let probabilities := softmax env.expf logits
          let prob := probabilities.getD pred_idx 0
          let name :=
            if pred_idx < st.class_names.length then st.class_names.getD pred_idx ""
            else "unknown_" ++ toString pred_idx
          let confidence := formatPercent (prob * 100)
          let result := (name, confidence)
          (.ok result, { st with cache := cache1.set cache_key result now })

/-- `Prediction.predict_sync` (lines 200-247): same pipeline, but the
fetch uses `requests.get` and sits in one try/except together with the
decode — the HTTP status code is never inspected, and a decode failure
is reported with the fetch-failure message. -/
def predict_sync (env : Env) (st : PredState) (url : String) (now : Int) :
    Except String (String × String) × PredState :=
  let cache_key := env.md5_hexdigest url
  let res := st.cache.get cache_key now
  let cache1 := res.2
  match res.1 with
  | some cached_result => (.ok cached_result, { st with cache := cache1 })
  | none =>
    let fetched : Except String NpArray :=
      match env.syncFetch url with
      | .netError e => .error ("Failed to load image from URL: " ++ e)
      | .response _ body => syncTensorOfBytes env body
    match fetched with
    | .error e => (.error e, { st with cache := cache1 })
    | .ok image =>
      match env.runModel image with
      | .error e => (.error e, { st with cache := cache1 })
      | .ok logits =>
        -- `int(np.argmax(logits))` raises ValueError on an empty vector
        if logits = [] then
          (.error "attempt to get argmax of an empty sequence",
            { st with cache := cache1 })
        else
          let pred_idx := argmaxIdx logits
          let probabilities := softmax env.expf logits
          let prob := probabilities.getD pred_idx 0
          let name :=
            if pred_idx < st.class_names.length then st.class_names.getD pred_idx ""
            else "unknown_" ++ toString pred_idx
          let confidence := formatPercent (prob * 100)
          let result := (name, confidence)
          (.ok result, { st with cache := cache1.set cache_key result now })

/-- Decidable check that a string matches the regular expression
`^\d+\.\d{2}%$`: one or more digits, a dot, exactly two digits, `%`. -/
def isConfPattern (s : String) : Bool :=
  let cs := s.data
  let n := cs.length
  decide (5 ≤ n) && (cs.take (n - 4)).all Char.isDigit &&
    (cs.getD (n - 4) ' ' == '.') && (cs.getD (n - 3) ' ').isDigit &&
    (cs.getD (n - 2) ' ').isDigit && (cs.getD (n - 1) ' ' == '%')

/-- Parse a `^\d+\.\d{2}%$` string back to the rational it denotes. -/
def parseConfidence (s : String) : Option ℚ :=
  if isConfPattern s then
    let cs := s.data
    let n := cs.length
    let ip : Nat := (cs.take (n - 4)).foldl (fun acc c => 10 * acc + (c.toNat - 48)) 0
    let d1 := (cs.getD (n - 3) '0').toNat - 48
    let d2 := (cs.getD (n - 2) '0').toNat - 48
    some ((ip : ℚ) + (10 * (d1 : ℚ) + (d2 : ℚ)) / 100)
  else none

theorem decDigit_toNat (d : Nat) : (decDigit d).toNat = 48 + d % 10 := by
  unfold decDigit
  have h : d % 10 < 10 := Nat.mod_lt _ (by norm_num)
  set r := d % 10 with hr
  interval_cases r <;> rfl

theorem decDigit_isDigit (d : Nat) : (decDigit d).isDigit = true := by
  unfold decDigit
  have h : d % 10 < 10 := Nat.mod_lt _ (by norm_num)
  set r := d % 10 with hr
  interval_cases r <;> rfl

theorem natDecimal_ne_nil (n : Nat) : natDecimal n ≠ [] := by
  unfold natDecimal
  by_cases h : n = 0
  · simp [h]
  · simp only [h, if_false]
    simp [Nat.digits_ne_nil_iff_ne_zero, h]

theorem natDecimal_all_digits (n : Nat) : (natDecimal n).all Char.isDigit = true := by
  unfold natDecimal
  by_cases h : n = 0
  · simp [h]
  · simp only [h, if_false, List.all_eq_true, List.mem_reverse, List.mem_map]
    rintro c ⟨d, _, rfl⟩
    exact decDigit_isDigit d

theorem foldl_decimal_rev_digits (ds : List Nat) (hds : ∀ x ∈ ds, x < 10) :
    ∀ acc : Nat,
      ((ds.map decDigit).reverse).foldl (fun acc c => 10 * acc + (c.toNat - 48)) acc =
        acc * 10 ^ ds.length + Nat.ofDigits 10 ds := by
  induction ds with
  | nil => intro acc; simp [Nat.ofDigits]
  | cons d ds ih =>
    intro acc
    have hd10 : d < 10 := hds d (List.mem_cons_self _ _)
    have hrec := ih (fun x hx => hds x (List.mem_cons_of_mem _ hx)) acc
    simp only [List.map_cons, List.reverse_cons, List.foldl_append, List.foldl_cons,
      List.foldl_nil, hrec, Nat.ofDigits_cons, List.length_cons]
    rw [decDigit_toNat]
    have hd : 48 + d % 10 - 48 = d % 10 := by omega
    rw [hd, Nat.mod_eq_of_lt hd10]
    ring

theorem foldl_decimal_natDecimal (m : Nat) :
    (natDecimal m).foldl (fun acc c => 10 * acc + (c.toNat - 48)) 0 = m := by
  unfold natDecimal
  by_cases h : m = 0
  · simp [h]
  · simp only [h, if_false]
    rw [foldl_decimal_rev_digits _ (fun x hx => Nat.digits_lt_base (by norm_num) hx)]
    simp [Nat.ofDigits_digits]

theorem isConfPattern_append (L : List Char) (hL : L ≠ [])
    (hdig : L.all Char.isDigit = true) (a b : Nat) :
    isConfPattern (String.mk (L ++ ['.', decDigit a, decDigit b, '%'])) = true := by
  unfold isConfPattern
  dsimp only
  have h4 : (L ++ ['.', decDigit a, decDigit b, '%']).length = L.length + 4 := by simp
  have hsub4 : L.length + 4 - 4 = L.length := by omega
  have hsub3 : L.length + 4 - 3 = L.length + 1 := by omega
  have hsub2 : L.length + 4 - 2 = L.length + 2 := by omega
  have hsub1 : L.length + 4 - 1 = L.length + 3 := by omega
  rw [h4, hsub4, hsub3, hsub2, hsub1]
  have g1 : (L ++ ['.', decDigit a, decDigit b, '%']).getD L.length ' ' = '.' := by
    rw [List.getD_append_right _ _ _ _ (le_refl _)]
    simp
  have g2 : (L ++ ['.', decDigit a, decDigit b, '%']).getD (L.length + 1) ' ' =
      decDigit a := by
    rw [List.getD_append_right _ _ _ _ (by omega)]
    have hh : L.length + 1 - L.length = 1 := by omega
    rw [hh]
    rfl
  have g3 : (L ++ ['.', decDigit a, decDigit b, '%']).getD (L.length + 2) ' ' =
      decDigit b := by
    rw [List.getD_append_right _ _ _ _ (by omega)]
    have hh : L.length + 2 - L.length = 2 := by omega
    rw [hh]
    rfl
  have g4 : (L ++ ['.', decDigit a, decDigit b, '%']).getD (L.length + 3) ' ' = '%' := by
    rw [List.getD_append_right _ _ _ _ (by omega)]
    have hh : L.length + 3 - L.length = 3 := by omega
    rw [hh]
    rfl
  have h5 : 5 ≤ L.length + 4 := by
    have := List.length_pos.mpr hL
    omega
  rw [g1, g2, g3, g4, List.take_left]
  simp [h5, hdig, decDigit_isDigit]

theorem isConfPattern_formatPercent (x : ℚ) :
    isConfPattern (formatPercent x) = true := by
  unfold formatPercent
  exact isConfPattern_append _ (natDecimal_ne_nil _) (natDecimal_all_digits _) _ _

theorem parseConfidence_append (L : List Char) (hL : L ≠ [])
    (hdig : L.all Char.isDigit = true) (a b : Nat) (ha : a < 10) (hb : b < 10) :
    parseConfidence (String.mk (L ++ ['.', decDigit a, decDigit b, '%'])) =
      some (((L.foldl (fun acc c => 10 * acc + (c.toNat - 48)) 0 : Nat) : ℚ) +
        (10 * (a : ℚ) + (b : ℚ)) / 100) := by
  unfold parseConfidence
  rw [if_pos (isConfPattern_append L hL hdig a b)]
  dsimp only
  have h4 : (L ++ ['.', decDigit a, decDigit b, '%']).length = L.length + 4 := by simp
  have hsub4 : L.length + 4 - 4 = L.length := by omega
  have hsub3 : L.length + 4 - 3 = L.length + 1 := by omega
  have hsub2 : L.length + 4 - 2 = L.length + 2 := by omega
  rw [h4, hsub4, hsub3, hsub2, List.take_left]
  have g2 : (L ++ ['.', decDigit a, decDigit b, '%']).getD (L.length + 1) '0' =
      decDigit a := by
    rw [List.getD_append_right _ _ _ _ (by omega)]
    have hh : L.length + 1 - L.length = 1 := by omega
    rw [hh]
    rfl
  have g3 : (L ++ ['.', decDigit a, decDigit b, '%']).getD (L.length + 2) '0' =
      decDigit b := by
    rw [List.getD_append_right _ _ _ _ (by omega)]
    have hh : L.length + 2 - L.length = 2 := by omega
    rw [hh]
    rfl
  rw [g2, g3, decDigit_toNat, decDigit_toNat,
    Nat.mod_eq_of_lt ha, Nat.mod_eq_of_lt hb]
  have hca : 48 + a - 48 = a := by omega
  have hcb : 48 + b - 48 = b := by omega
  rw [hca, hcb]

theorem parseConfidence_formatPercent (x : ℚ) :
    parseConfidence (formatPercent x) =
      some ((((round (x * 100)).toNat : ℚ)) / 100) := by
  unfold formatPercent
  have ha : (round (x * 100)).toNat % 100 / 10 < 10 := by omega
  have hb : (round (x * 100)).toNat % 100 % 10 < 10 := by omega
  rw [parseConfidence_append _ (natDecimal_ne_nil _) (natDecimal_all_digits _) _ _ ha hb,
    foldl_decimal_natDecimal]
  set n := (round (x * 100)).toNat with hn
  have hsplit : 10 * (n % 100 / 10) + n % 100 % 10 = n % 100 := by omega
  have hq : 10 * ((n % 100 / 10 : Nat) : ℚ) + ((n % 100 % 10 : Nat) : ℚ) =
      ((n % 100 : Nat) : ℚ) := by exact_mod_cast hsplit
  rw [hq]
  congr 1
  have hcast : ((n / 100 : Nat) : ℚ) * 100 + ((n % 100 : Nat) : ℚ) = (n : ℚ) := by
    have h := Nat.div_add_mod n 100
    have h2 : ((100 * (n / 100) + n % 100 : Nat) : ℚ) = (n : ℚ) := by exact_mod_cast h
    push_cast at h2
    linarith
  field_simp
  linarith

theorem round_nonneg_of_nonneg (x : ℚ) (h : 0 ≤ x) : 0 ≤ round x := by
  rw [round_eq]
  have : (0 : ℚ) ≤ x + 1 / 2 := by linarith
  exact_mod_cast Int.le_floor.mpr (by push_cast; linarith)

theorem round_le_of_le (x y : ℚ) (h : x ≤ y) : round x ≤ round y := by
  rw [round_eq, round_eq]
  exact Int.floor_mono (by linarith)

theorem round_natCast_eq (m : Nat) : round ((m : ℚ)) = m := by
  rw [round_eq, Int.floor_eq_iff]
  constructor
  · push_cast
    linarith
  · push_cast
    linarith

theorem parse_formatPercent_bounds (x : ℚ) (h0 : 0 ≤ x) (h100 : x ≤ 100) :
    ∃ v : ℚ, parseConfidence (formatPercent x) = some v ∧ 0 ≤ v ∧ v ≤ 100 := by
  refine ⟨(((round (x * 100)).toNat : ℚ)) / 100, parseConfidence_formatPercent x, ?_, ?_⟩
  · positivity
  · have h1 : round (x * 100) ≤ round ((10000 : ℕ) : ℚ) := by
      apply round_le_of_le
      push_cast
      linarith
    rw [round_natCast_eq] at h1
    have h2 : (round (x * 100)).toNat ≤ 10000 := Int.toNat_le.mpr h1
    have h3 : (((round (x * 100)).toNat : ℚ)) ≤ 10000 := by exact_mod_cast h2
    rw [div_le_iff (by norm_num : (0:ℚ) < 100)]
    linarith

theorem foldl_max_mem (h : ℚ) (t : List ℚ) : t.foldl max h ∈ h :: t := by
  induction t generalizing h with
  | nil => simp
  | cons q u ih =>
    rw [List.foldl_cons]
    rcases List.mem_cons.mp (ih (max h q)) with h1 | h1
    · rw [h1]
      rcases max_choice h q with hc | hc
      · rw [hc]
        exact List.mem_cons_self _ _
      · rw [hc]
        exact List.mem_cons_of_mem _ (List.mem_cons_self _ _)
    · exact List.mem_cons_of_mem _ (List.mem_cons_of_mem _ h1)

theorem npMax_mem (x : List ℚ) (hx : x ≠ []) : npMax x ∈ x := by
  cases x with
  | nil => exact absurd rfl hx
  | cons h t => exact foldl_max_mem h t

theorem argmaxIdx_lt (x : List ℚ) (hx : x ≠ []) : argmaxIdx x < x.length :=
  List.indexOf_lt_length.mpr (npMax_mem x hx)

theorem softmax_length (expf : ℚ → ℚ) (x : List ℚ) :
    (softmax expf x).length = x.length := by
  simp [softmax]

theorem softmax_getD_pos_le_one (expf : ℚ → ℚ) (hexp : ∀ q, 0 < expf q)
    (x : List ℚ) (hx : x ≠ []) (i : Nat) (hi : i < x.length) :
    0 < (softmax expf x).getD i 0 ∧ (softmax expf x).getD i 0 ≤ 1 := by
  unfold softmax
  dsimp only
  set e := x.map (fun v => expf (v - npMax x)) with he
  have hepos : ∀ a ∈ e, 0 < a := by
    intro a ha
    rcases List.mem_map.mp ha with ⟨v, _, rfl⟩
    exact hexp _
  have hene : e ≠ [] := by
    rw [he]
    simp [hx]
  have hsum : 0 < e.sum := List.sum_pos e hepos hene
  have hlen : i < e.length := by
    rw [he, List.length_map]
    exact hi
  have hgetD : (e.map (fun v => v / e.sum)).getD i 0 = (e.getD i 0) / e.sum := by
    rw [List.getD_eq_getElem?_getD, List.getElem?_map, List.getElem?_eq_getElem hlen,
      List.getD_eq_getElem?_getD, List.getElem?_eq_getElem hlen]
    rfl
  have hmem : e.getD i 0 ∈ e := by
    rw [List.getD_eq_getElem?_getD, List.getElem?_eq_getElem hlen]
    exact List.getElem_mem _
  rw [hgetD]
  constructor
  · exact div_pos (hepos _ hmem) hsum
  · rw [div_le_one hsum]
    exact List.single_le_sum (fun a ha => le_of_lt (hepos a ha)) _ hmem

/-- C7: for identical fetched image bytes, the asynchronous
preprocessing path and the synchronous path embedded in `predict_sync`
produce bit-identical output tensors — both apply the same RGB
conversion and decode, the same 224×224 LANCZOS resize, the same
division by 255, the same ImageNet mean/std per-channel normalization,
and the same HWC-to-CHW transpose with a leading batch dimension. -/
theorem claim_C7 (env : Env) (body : List Nat) (img : PILImage)
    (hdec : env.decode body = .ok img) :
    asyncTensorOfBytes env body = syncTensorOfBytes env body ∧
      asyncTensorOfBytes env body =
        .ok (preprocessArrayAsync (env.resizeLanczos img)) := by
  unfold asyncTensorOfBytes syncTensorOfBytes
  rw [hdec]
  exact ⟨rfl, rfl⟩

def envOk : Env :=
  { fetch := fun _ => .response 200 [7]
    syncFetch := fun _ => .response 200 [7]
    decode := fun _ => .ok 0
    resizeLanczos := fun _ => fun _ _ _ => 0
    runModel := fun _ => .ok [0, 0, 0]
    expf := fun _ => 1
    md5_hexdigest := fun s => s }

theorem claim_C7_witness :
    envOk.decode [7] = .ok 0 ∧
      (asyncTensorOfBytes envOk [7] = syncTensorOfBytes envOk [7] ∧
        asyncTensorOfBytes envOk [7] =
          .ok (preprocessArrayAsync (envOk.resizeLanczos 0))) :=
  ⟨rfl, claim_C7 envOk [7] 0 rfl⟩

/-- `a` is a well-formed 4-D array of shape (1, 3, 224, 224). -/
def hasShape1_3_224_224 (a : List (List (List (List ℚ)))) : Prop :=
  a.length = 1 ∧ ∀ b ∈ a, b.length = 3 ∧
    ∀ pl ∈ b, pl.length = 224 ∧ ∀ row ∈ pl, row.length = 224

theorem headD_map_range224 {α : Type} (f : Nat → α) (d : α) :
    ((List.range 224).map f).headD d = f 0 := rfl

theorem canonical_normalized (pix : RGB224) :
    normalizeChannels (div255 (npArrayOfImage pix)) imagenetMean imagenetStd =
      (List.range 224).map (fun h => (List.range 224).map (fun w =>
        (((List.range 3).map (fun ch => (pix h w ch : ℚ))).map
          (fun v => v / 255)).mapIdx
            (fun ch v => (v - imagenetMean.getD ch 0) / imagenetStd.getD ch 1))) := by
  unfold npArrayOfImage div255 normalizeChannels
  simp [List.map_map, Function.comp]

theorem preprocessAsync_shape (pix : RGB224) :
    hasShape1_3_224_224 (preprocessArrayAsync pix).data := by
  unfold preprocessArrayAsync
  dsimp only
  rw [canonical_normalized]
  refine ⟨rfl, ?_⟩
  intro b hb
  rw [List.mem_singleton] at hb
  subst hb
  have hinner :
      ((((List.range 224).map (fun h => (List.range 224).map (fun w =>
        (((List.range 3).map (fun ch => (pix h w ch : ℚ))).map
          (fun v => v / 255)).mapIdx
            (fun ch v => (v - imagenetMean.getD ch 0) /
              imagenetStd.getD ch 1)))).headD []).headD []).length = 3 := by
    rw [headD_map_range224, headD_map_range224]
    simp [List.length_mapIdx]
  constructor
  · unfold transpose201
    rw [hinner]
    simp
  · intro pl hpl
    unfold transpose201 at hpl
    rcases List.mem_map.mp hpl with ⟨ch, _, rfl⟩
    constructor
    · simp
    · intro row hrow
      rcases List.mem_map.mp hrow with ⟨r, hr, rfl⟩
      rcases List.mem_map.mp hr with ⟨h, _, rfl⟩
      simp

/-- C8: for every successfully decoded image — of any source resolution
and any source color mode, both handled by the abstract
decode-and-convert plus LANCZOS-resize oracle producing a 224×224 RGB
pixel grid — the preprocessed tensor fed to inference is a float32
array of shape exactly (1, 3, 224, 224), on both the async and the sync
path. -/
theorem claim_C8 (pix : RGB224) :
    (preprocessArrayAsync pix).dtype = "float32" ∧
      hasShape1_3_224_224 (preprocessArrayAsync pix).data ∧
      (preprocessArraySync pix).dtype = "float32" ∧
      hasShape1_3_224_224 (preprocessArraySync pix).data := by
  refine ⟨rfl, preprocessAsync_shape pix, rfl, ?_⟩
  show hasShape1_3_224_224 (preprocessArrayAsync pix).data
  exact preprocessAsync_shape pix

/-- `PredictionCache()` with its default arguments (line 19, as
constructed at line 68): max 1000 entries, 1 hour TTL. -/
def emptyCache : PredictionCache :=
  { cache := [], timestamps := [], max_size := 1000, ttl_seconds := 3600 }

/-- C1: whenever `predict` runs inference (cache miss, successful fetch
and decode, successful model run with nonempty logits), the confidence
component of the returned pair is the numerically stable softmax of the
full logits vector evaluated at the arg-max index — never a raw logit —
formatted as a percentage string matching `^\d+\.\d{2}%$` that parses
to a value in [0, 100].  (`np.exp` is abstract but strictly positive,
which is all the bounds need.) -/
theorem claim_C1 (env : Env) (st : PredState) (url : String) (now : Int)
    (hexp : ∀ q, 0 < env.expf q)
    (hmiss : (st.cache.get (env.md5_hexdigest url) now).1 = none)
    (t : NpArray) (hpre : preprocess_image_from_url env url = .ok t)
    (logits : List ℚ) (hrun : env.runModel t = .ok logits) (hlog : logits ≠ []) :
    ∃ conf : String,
      (predict env st url now).1.map Prod.snd = Except.ok conf ∧
      conf = formatPercent ((softmax env.expf logits).getD
        (argmaxIdx logits) 0 * 100) ∧
      isConfPattern conf = true ∧
      ∃ v : ℚ, parseConfidence conf = some v ∧ 0 ≤ v ∧ v ≤ 100 := by
  have hlt := argmaxIdx_lt logits hlog
  have hbounds := softmax_getD_pos_le_one env.expf hexp logits hlog _ hlt
  refine ⟨formatPercent ((softmax env.expf logits).getD
      (argmaxIdx logits) 0 * 100), ?_, rfl,
    isConfPattern_formatPercent _, parse_formatPercent_bounds _ ?_ ?_⟩
  · unfold predict
    dsimp only
    rw [hmiss, hpre]
    dsimp only
    rw [hrun]
    dsimp only
    rw [if_neg hlog]
    rfl
  · nlinarith [hbounds.1]
  · nlinarith [hbounds.2]

def stW : PredState :=
  { class_names := ["Pikachu", "Charmander", "Bulbasaur"], cache := emptyCache }

theorem claim_C1_witness :
    (stW.cache.get (envOk.md5_hexdigest "u") 0).1 = none ∧
      preprocess_image_from_url envOk "u" =
        .ok (preprocessArrayAsync (envOk.resizeLanczos 0)) ∧
      envOk.runModel (preprocessArrayAsync (envOk.resizeLanczos 0)) =
        .ok [0, 0, 0] ∧
      ([0, 0, 0] : List ℚ) ≠ [] ∧
      (∃ conf : String,
        (predict envOk stW "u" 0).1.map Prod.snd = Except.ok conf ∧
        conf = formatPercent ((softmax envOk.expf ([0, 0, 0] : List ℚ)).getD
          (argmaxIdx ([0, 0, 0] : List ℚ)) 0 * 100) ∧
        isConfPattern conf = true ∧
        ∃ v : ℚ, parseConfidence conf = some v ∧ 0 ≤ v ∧ v ≤ 100) :=
  ⟨rfl, rfl, rfl, by decide,
    claim_C1 envOk stW "u" 0 (fun _ => one_pos) rfl _ rfl _ rfl (by decide)⟩

/-- C5: when inference succeeds with an arg-max index ≥ the label
table's length, `predict` (and `predict_sync`) does not fail: it
returns the synthetic label `unknown_<index>` paired with a well-formed
confidence string, so the caller still receives a well-formed pair. -/
theorem claim_C5 (env : Env) (st : PredState) (url : String) (now : Int)
    (hmiss : (st.cache.get (env.md5_hexdigest url) now).1 = none)
    (t : NpArray) (hpre : preprocess_image_from_url env url = .ok t)
    (logits : List ℚ) (hrun : env.runModel t = .ok logits) (hlog : logits ≠ [])
    (hidx : st.class_names.length ≤ argmaxIdx logits)
    (status : Nat) (body : List Nat) (img : PILImage)
    (hsfetch : env.syncFetch url = .response status body)
    (hsdec : env.decode body = .ok img) (logits2 : List ℚ)
    (hrun2 : env.runModel (preprocessArraySync (env.resizeLanczos img)) = .ok logits2)
    (hlog2 : logits2 ≠ [])
    (hidx2 : st.class_names.length ≤ argmaxIdx logits2) :
    ((predict env st url now).1.map Prod.fst =
        Except.ok ("unknown_" ++ toString (argmaxIdx logits)) ∧
      ∃ conf : String, (predict env st url now).1.map Prod.snd = Except.ok conf ∧
        isConfPattern conf = true) ∧
    ((predict_sync env st url now).1.map Prod.fst =
        Except.ok ("unknown_" ++ toString (argmaxIdx logits2)) ∧
      ∃ conf : String, (predict_sync env st url now).1.map Prod.snd = Except.ok conf ∧
        isConfPattern conf = true) := by
  constructor
  · have hbody : (predict env st url now).1 =
        Except.ok ("unknown_" ++ toString (argmaxIdx logits),
          formatPercent ((softmax env.expf logits).getD
            (argmaxIdx logits) 0 * 100)) := by
      unfold predict
      dsimp only
      rw [hmiss, hpre]
      dsimp only
      rw [hrun]
      dsimp only
      rw [if_neg hlog]
      dsimp only
      rw [if_neg (not_lt.mpr hidx)]
    rw [hbody]
    exact ⟨rfl, _, rfl, isConfPattern_formatPercent _⟩
  · have hbody : (predict_sync env st url now).1 =
        Except.ok ("unknown_" ++ toString (argmaxIdx logits2),
          formatPercent ((softmax env.expf logits2).getD
            (argmaxIdx logits2) 0 * 100)) := by
      unfold predict_sync
      dsimp only
      rw [hmiss, hsfetch]
      unfold syncTensorOfBytes
      dsimp only
      rw [hsdec]
      dsimp only
      rw [hrun2]
      dsimp only
      rw [if_neg hlog2]
      dsimp only
      rw [if_neg (not_lt.mpr hidx2)]
    rw [hbody]
    exact ⟨rfl, _, rfl, isConfPattern_formatPercent _⟩

def envC5 : Env :=
  { fetch := fun _ => .response 200 [7]
    syncFetch := fun _ => .response 200 [7]
    decode := fun _ => .ok 0
    resizeLanczos := fun _ => fun _ _ _ => 0
    runModel := fun _ => .ok [0, 0, 0, 0, 0, 0, 0, 1]
    expf := fun _ => 1
    md5_hexdigest := fun s => s }

def stC5 : PredState :=
  { class_names := ["a", "b", "c", "d", "e"], cache := emptyCache }

theorem claim_C5_witness :
    (stC5.cache.get (envC5.md5_hexdigest "u") 0).1 = none ∧
      preprocess_image_from_url envC5 "u" =
        .ok (preprocessArrayAsync (envC5.resizeLanczos 0)) ∧
      envC5.runModel (preprocessArrayAsync (envC5.resizeLanczos 0)) =
        .ok [0, 0, 0, 0, 0, 0, 0, 1] ∧
      stC5.class_names.length ≤ argmaxIdx ([0, 0, 0, 0, 0, 0, 0, 1] : List ℚ) ∧
      envC5.syncFetch "u" = .response 200 [7] ∧
      envC5.decode [7] = .ok 0 ∧
      envC5.runModel (preprocessArraySync (envC5.resizeLanczos 0)) =
        .ok [0, 0, 0, 0, 0, 0, 0, 1] ∧
      (((predict envC5 stC5 "u" 0).1.map Prod.fst =
          Except.ok ("unknown_" ++ toString
            (argmaxIdx ([0, 0, 0, 0, 0, 0, 0, 1] : List ℚ))) ∧
        ∃ conf : String, (predict envC5 stC5 "u" 0).1.map Prod.snd = Except.ok conf ∧
          isConfPattern conf = true) ∧
      ((predict_sync envC5 stC5 "u" 0).1.map Prod.fst =
          Except.ok ("unknown_" ++ toString
            (argmaxIdx ([0, 0, 0, 0, 0, 0, 0, 1] : List ℚ))) ∧
        ∃ conf : String, (predict_sync envC5 stC5 "u" 0).1.map Prod.snd = Except.ok conf ∧
          isConfPattern conf = true)) :=
  ⟨rfl, rfl, rfl, by decide, rfl, rfl, rfl,
    claim_C5 envC5 stC5 "u" 0 rfl _ rfl _ rfl (by decide) (by decide)
      200 [7] 0 rfl rfl _ rfl (by decide) (by decide)⟩

theorem get_none_key_absent (c : PredictionCache) (key : String) (now : Int)
    (hal : keysAligned c) (h : (c.get key now).1 = none) :
    dictGet? key ((c.get key now).2).cache = none := by
  have hal1 := keysAligned_cleanup hal now
  unfold PredictionCache.get at h ⊢
  dsimp only at h ⊢
  cases h1 : dictGet? key (c.cleanup_expired now).cache with
  | none =>
    dsimp only
    exact h1
  | some v =>
    cases h2 : dictGet? key (c.cleanup_expired now).timestamps with
    | none =>
      exfalso
      have hmem : key ∈ (c.cleanup_expired now).cache.map Prod.fst := by
        by_contra hcon
        have hnone := (dictGet?_eq_none_iff key _).mpr hcon
        rw [h1] at hnone
        cases hnone
      rw [hal1] at hmem
      exact (dictGet?_eq_none_iff key _).mp h2 hmem
    | some ts =>
      rw [h1, h2] at h
      dsimp only at h ⊢
      by_cases httl : now - ts ≤ (c.cleanup_expired now).ttl_seconds
      · rw [if_pos httl] at h
        cases h
      · rw [if_neg httl]
        dsimp only
        rw [dictGet?_dictPop]
        simp

/-- C2: failed classifications are never cached: whenever `predict` or
`predict_sync` fails (fetch error, decode error), it returns the error
and the returned cache state holds no entry for the URL's key, so a
subsequent call with the same URL misses the cache and performs a fresh
network fetch; an entry is inserted only after a fully successful
classification. -/
theorem claim_C2 (env : Env) (st : PredState) (url : String) (now : Int)
    (e1 e2 : String) (hal : keysAligned st.cache)
    (herrA : (predict env st url now).1 = .error e1)
    (herrS : (predict_sync env st url now).1 = .error e2) :
    dictGet? (env.md5_hexdigest url) ((predict env st url now).2.cache).cache = none ∧
      dictGet? (env.md5_hexdigest url)
        ((predict_sync env st url now).2.cache).cache = none := by
  constructor
  · unfold predict at herrA ⊢
    dsimp only at herrA ⊢
    cases hget : (st.cache.get (env.md5_hexdigest url) now).1 with
    | some r =>
      rw [hget] at herrA
      simp at herrA
    | none =>
      rw [hget] at herrA
      cases hp : preprocess_image_from_url env url with
      | ok t =>
        rw [hp] at herrA
        dsimp only at herrA ⊢
        cases hrm : env.runModel t with
        | error e3 =>
          rw [hrm] at herrA
          dsimp only
          exact get_none_key_absent st.cache _ now hal hget
        | ok logits =>
          rw [hrm] at herrA
          dsimp only at herrA ⊢
          by_cases hemp : logits = []
          · rw [if_pos hemp]
            dsimp only
            exact get_none_key_absent st.cache _ now hal hget
          · rw [if_neg hemp] at herrA
            simp at herrA
      | error e =>
        dsimp only
        exact get_none_key_absent st.cache _ now hal hget
  · unfold predict_sync at herrS ⊢
    dsimp only at herrS ⊢
    cases hget : (st.cache.get (env.md5_hexdigest url) now).1 with
    | some r =>
      rw [hget] at herrS
      simp at herrS
    | none =>
      rw [hget] at herrS
      cases hp : (match env.syncFetch url with
        | .netError e => Except.error ("Failed to load image from URL: " ++ e)
        | .response _ body => syncTensorOfBytes env body) with
      | ok t =>
        rw [hp] at herrS
        dsimp only at herrS ⊢
        cases hrm : env.runModel t with
        | error e3 =>
          rw [hrm] at herrS
          dsimp only
          exact get_none_key_absent st.cache _ now hal hget
        | ok logits =>
          rw [hrm] at herrS
          dsimp only at herrS ⊢
          by_cases hemp : logits = []
          · rw [if_pos hemp]
            dsimp only
            exact get_none_key_absent st.cache _ now hal hget
          · rw [if_neg hemp] at herrS
            simp at herrS
      | error e =>
        dsimp only
        exact get_none_key_absent st.cache _ now hal hget

def envErr : Env :=
  { fetch := fun _ => .response 200 [1]
    syncFetch := fun _ => .response 200 [1]
    decode := fun _ => .ok 0
    resizeLanczos := fun _ => fun _ _ _ => 0
    runModel := fun _ => .error "ONNX Runtime error: invalid input shape"
    expf := fun _ => 1
    md5_hexdigest := fun s => s }

theorem claim_C2_witness :
    keysAligned stW.cache ∧
      (predict envErr stW "u" 0).1 =
        .error "ONNX Runtime error: invalid input shape" ∧
      (predict_sync envErr stW "u" 0).1 =
        .error "ONNX Runtime error: invalid input shape" ∧
      (dictGet? (envErr.md5_hexdigest "u")
          ((predict envErr stW "u" 0).2.cache).cache = none ∧
        dictGet? (envErr.md5_hexdigest "u")
          ((predict_sync envErr stW "u" 0).2.cache).cache = none) :=
  ⟨rfl, rfl, rfl, claim_C2 envErr stW "u" 0 _ _ rfl rfl rfl⟩

def envC4 : Env :=
  { fetch := fun _ => .response 404 [1]
    syncFetch := fun _ => .response 404 [1]
    decode := fun _ => .ok 0
    resizeLanczos := fun _ => fun _ _ _ => 0
    runModel := fun _ => .ok [1]
    expf := fun _ => 1
    md5_hexdigest := fun s => s }

def stC4 : PredState := { class_names := ["Pikachu"], cache := emptyCache }

/-- C4 counterexample: the claim says that in the synchronous calling
style a non-2xx response raises a fetch error and never proceeds to
decode or inference — but `predict_sync` never inspects the status code
(`requests.get` does not raise on 404 and there is no
`raise_for_status`), so a 404 response whose body decodes as an image
proceeds all the way through inference and returns a label. -/
theorem claim_C4_counterexample :
    envC4.syncFetch "u" = .response 404 [1] ∧ 404 ∉ List.range' 200 100 ∧
      (predict_sync envC4 stC4 "u" 0).1.map Prod.fst = Except.ok "Pikachu" :=
  ⟨rfl, by decide, rfl⟩

/-- C4 (amended): in the shared-session asynchronous style, a non-200
(hence in particular any non-2xx) status or any network exception is a
fetch failure raised before decode or inference; in the blocking
synchronous style only a network exception or a decode failure raises
(both with the fetch-failure message) — the HTTP status code is not
inspected there, so a non-2xx response whose body decodes as an image
proceeds to inference. -/
theorem claim_C4 (env : Env) (st : PredState) (url : String) (now : Int)
    (status : Nat) (body : List Nat) (m1 m2 e : String)
    (hmiss : (st.cache.get (env.md5_hexdigest url) now).1 = none) :
    (env.fetch url = .response status body → status ≠ 200 →
      preprocess_image_from_url env url =
        .error ("Failed to load image from URL: HTTP " ++ toString status ++
          " error fetching image")) ∧
    (env.fetch url = .netError m1 →
      preprocess_image_from_url env url =
        .error ("Failed to load image from URL: " ++ m1)) ∧
    (env.syncFetch url = .netError m2 →
      (predict_sync env st url now).1 =
        .error ("Failed to load image from URL: " ++ m2)) ∧
    (env.syncFetch url = .response status body → env.decode body = .error e →
      (predict_sync env st url now).1 =
        .error ("Failed to load image from URL: " ++ e)) := by
  refine ⟨?_, ?_, ?_, ?_⟩
  · intro hf hst
    unfold preprocess_image_from_url
    rw [hf]
    dsimp only
    rw [if_pos hst]
  · intro hf
    unfold preprocess_image_from_url
    rw [hf]
  · intro hf
    unfold predict_sync
    dsimp only
    rw [hmiss, hf]
  · intro hf hd
    unfold predict_sync
    dsimp only
    rw [hmiss, hf]
    unfold syncTensorOfBytes
    dsimp only
    rw [hd]

def envC4w : Env :=
  { fetch := fun _ => .response 404 []
    syncFetch := fun _ => .response 404 []
    decode := fun _ => .error "cannot identify image file"
    resizeLanczos := fun _ => fun _ _ _ => 0
    runModel := fun _ => .ok [1]
    expf := fun _ => 1
    md5_hexdigest := fun s => s }

theorem claim_C4_witness :
    (stC4.cache.get (envC4w.md5_hexdigest "u") 0).1 = none ∧
      ((envC4w.fetch "u" = .response 404 [] → 404 ≠ 200 →
        preprocess_image_from_url envC4w "u" =
          .error ("Failed to load image from URL: HTTP " ++ toString 404 ++
            " error fetching image")) ∧
      (envC4w.fetch "u" = .netError "boom" →
        preprocess_image_from_url envC4w "u" =
          .error ("Failed to load image from URL: " ++ "boom")) ∧
      (envC4w.syncFetch "u" = .netError "boom2" →
        (predict_sync envC4w stC4 "u" 0).1 =
          .error ("Failed to load image from URL: " ++ "boom2")) ∧
      (envC4w.syncFetch "u" = .response 404 [] →
        envC4w.decode [] = .error "cannot identify image file" →
        (predict_sync envC4w stC4 "u" 0).1 =
          .error ("Failed to load image from URL: " ++ "cannot identify image file"))) :=
  ⟨rfl, claim_C4 envC4w stC4 "u" 0 404 [] "boom" "boom2" "cannot identify image file" rfl⟩

/-! ### Label-table loading (`Prediction.load_class_names`, lines 88-115) -/

/-- The shapes a parsed `labels_v2.json` can take: a JSON object with
stringified-integer keys (modelled with the keys already converted by
Python's `int`), a flat list of names, or anything else. -/
inductive LabelsJson
  | dict (entries : List (Int × String))
  | list (names : List String)
  | other

/-- The slice of the filesystem the label loader touches. -/
structure FS where
  /-- content of the labels file, when it exists -/
  labelsFile : Option LabelsJson
  /-- whether the labels file's parent directories exist (`os.makedirs`) -/
  labelsParentDirsExist : Bool
  /-- immediate subdirectory names of `SAVE_PATH`, when that directory exists -/
  saveDir : Option (List String)

/-- Python `s.strip('"')`: remove all leading and trailing `"` characters. -/
def stripQuotes (s : String) : String :=
  String.mk
    (((s.data.dropWhile (fun c => c == '"')).reverse.dropWhile
      (fun c => c == '"')).reverse)

/-- `Prediction.generate_labels_file_from_save_path` (lines 88-101):
fail if `SAVE_PATH` does not exist; otherwise sort the subdirectory
names, create the labels file's parent directories, write the sorted
list to the labels file, and return it. -/
def generate_labels_file_from_save_path (fs : FS) : Except String (List String × FS) :=
  match fs.saveDir with
  | none => .error "SAVE_PATH does not exist"
  | some subdirs =>
    let class_names := subdirs.mergeSort (fun a b => a ≤ b)
    .ok (class_names,
      { fs with
        labelsFile := some (.list class_names)
        labelsParentDirsExist := true })

/-- `Prediction.load_class_names` (lines 103-115): if the labels file is
absent, derive it from `SAVE_PATH`; otherwise parse it — an object is
read in numeric key order, a list as-is (both with quote stripping), and
any other JSON shape is a fatal configuration error. -/
def load_class_names (fs : FS) : Except String (List String × FS) :=
  match fs.labelsFile with
  | none => generate_labels_file_from_save_path fs
  | some data =>
    match data with
    | .dict entries =>
      .ok ((entries.mergeSort (fun a b => a.1 ≤ b.1)).map (fun p => stripQuotes p.2),
        fs)
    | .list names => .ok (names.map stripQuotes, fs)
    | .other => .error "labels_v2.json must be a list or dict"

/-- `Prediction.__init__` (lines 63-86) restricted to label-table
construction and cache creation; a label-loading failure propagates, so
the predictor is not constructed.  (The ONNX session setup is an
external effect outside this model.) -/
def initPrediction (fs : FS) : Except String (PredState × FS) :=
  match load_class_names fs with
  | .error e => .error e
  | .ok r => .ok ({ class_names := r.1, cache := emptyCache }, r.2)

/-- C9: when the labels file is absent, `load_class_names` derives the
label table as the lexicographically sorted list of the immediate
subdirectory names of the reference-images directory, persists exactly
that table to the labels file path (creating parent directories as
needed), and returns it; if the reference-images directory does not
exist either, label-table construction fails and the predictor is not
constructed. -/
theorem claim_C9 (fs : FS) (habsent : fs.labelsFile = none) :
    (∀ subdirs, fs.saveDir = some subdirs →
      ∃ sorted fs',
        load_class_names fs = .ok (sorted, fs') ∧
        sorted.Perm subdirs ∧ sorted.Sorted (· ≤ ·) ∧
        fs'.labelsFile = some (.list sorted) ∧
        fs'.labelsParentDirsExist = true) ∧
    (fs.saveDir = none → initPrediction fs = .error "SAVE_PATH does not exist") := by
  constructor
  · intro subdirs hsave
    unfold load_class_names generate_labels_file_from_save_path
    rw [habsent, hsave]
    dsimp only
    refine ⟨_, _, rfl, List.mergeSort_perm _ _, ?_, rfl, rfl⟩
    refine List.Pairwise.imp ?_ (List.sorted_mergeSort ?_ ?_ subdirs)
    · intro a b hab
      exact of_decide_eq_true hab
    · intro a b c hab hbc
      exact decide_eq_true
        (le_trans (of_decide_eq_true hab) (of_decide_eq_true hbc))
    · intro a b
      rcases le_total a b with h | h <;> simp [h]
  · intro hnone
    unfold initPrediction load_class_names generate_labels_file_from_save_path
    rw [habsent, hnone]

def fsC9 : FS :=
  { labelsFile := none, labelsParentDirsExist := false, saveDir := some ["b", "a"] }

theorem claim_C9_witness :
    fsC9.labelsFile = none ∧
      ((∀ subdirs, fsC9.saveDir = some subdirs →
        ∃ sorted fs',
          load_class_names fsC9 = .ok (sorted, fs') ∧
          sorted.Perm subdirs ∧ sorted.Sorted (· ≤ ·) ∧
          fs'.labelsFile = some (.list sorted) ∧
          fs'.labelsParentDirsExist = true) ∧
      (fsC9.saveDir = none →
        initPrediction fsC9 = .error "SAVE_PATH does not exist")) :=
  ⟨rfl, claim_C9 fsC9 rfl⟩
